import Mathlib

/-
  Verification of the anvill BasicBlockLifter (src/lib/Lifters/BasicBlockLifter.cpp)
  and the Specification comparison operators (src/include/anvill/Specification.h).

  The C++ code is shallowly embedded: the external collaborators (memory provider,
  architecture decoder, control-flow provider) are parameters, machine integers are
  Nat with explicit reductions where the C++ types force them, and the LLVM IR that
  the lifter emits is modelled as an explicit trace of emission events tagged with
  the identifier of the IR basic block they are emitted into.
-/

set_option maxHeartbeats 1000000

namespace Anvill

/-- Byte availability as reported by the memory provider
(`anvill::ByteAvailability`, consumed in BasicBlockLifter.cpp). -/
inductive ByteAvailability
  | kUnknown
  | kUnavailable
  | kAvailable
  deriving DecidableEq, Repr

/-- Byte permissions as reported by the memory provider (`anvill::BytePermission`). -/
inductive BytePermission
  | kUnknown
  | kReadable
  | kReadableWritable
  | kReadableExecutable
  | kReadableWritableExecutable
  deriving DecidableEq, Repr

/-- A `memory_provider.Query(addr)` result: the byte, its availability, its permissions. -/
abbrev MemoryQuery := Nat × ByteAvailability × BytePermission

/-- The memory provider interface (`ByteProvider.Query`). -/
abbrev MemoryProvider := Nat → MemoryQuery

/-- The `anvill::ControlFlowOverride` variant
(std::variant of None / Call / Jump / Return / Misc).
`call` keeps the fields BasicBlockLifter.cpp reads: `target_address` and `stop`. -/
inductive ControlFlowOverride
  | none
  | call (target_address : Option Nat) (stop : Bool)
  | jump
  | ret
  | misc (stop : Bool)
  deriving DecidableEq, Repr

/-- `anvill::CodeBlock`: byte extent `[addr, addr+size)`, uid, successor uids. -/
structure CodeBlock where
  addr : Nat
  size : Nat
  uid : Nat
  outgoing_edges : List Nat
  deriving DecidableEq, Repr

/-- The part of `anvill::FunctionDecl` that `TerminateBasicBlockFunction` reads:
the uid-keyed block graph `cfg`. -/
structure FunctionDecl where
  address : Nat
  cfg : List (Nat × CodeBlock)
  deriving DecidableEq, Repr

/-- A decoded `remill::Instruction`, restricted to the fields BasicBlockLifter.cpp
reads: `pc`, the instruction bytes, the nominal fall-through address
`branch_not_taken_pc`, and whether `insn.flows` holds a `ConditionalInstruction`. -/
structure Instruction where
  pc : Nat
  bytes : List Nat
  branch_not_taken_pc : Nat
  conditional : Bool
  deriving DecidableEq, Repr

/-- Symbolic IR values that flow through the lifter: the loaded
`kReturnPCVariableName` register, constant additions on it (the SPARC marker
correction), and the loaded branch-taken flag. -/
inductive SymValue
  | retPCVar
  | addConst (base : SymValue) (k : Nat)
  | branchTaken
  deriving DecidableEq, Repr

/-- One IR emission step performed by the lifter, tagged with the id of the IR
basic block it happens in. `createBlock` is `llvm::BasicBlock::Create`;
`condBr`/`br` are branch instructions; `callIntrinsic` is the call to
`intrinsics.function_call` (with the optional constant program-counter hint);
`tailCallError` is `remill::AddTerminatingTailCall(.., intrinsics.error, ..)`;
`storeNextPC`/`storePC` store into the next-program-counter and program-counter
references; `storeShouldReturn` stores the all-ones value into the
`should_return` slot; `liftInstruction` is `LiftIntoBlock`;
`storeNextPCOut`/`retMemory` are the fall-through exit stores. -/
inductive Event
  | createBlock (id : Nat)
  | condBr (inBlock : Nat) (cond : SymValue) (takenDest notTakenDest : Nat)
  | br (inBlock : Nat) (dest : Nat)
  | callIntrinsic (inBlock : Nat) (pc_hint : Option Nat)
  | setDoesNotReturn (inBlock : Nat)
  | tailCallError (inBlock : Nat)
  | storeNextPC (inBlock : Nat) (v : SymValue)
  | storePC (inBlock : Nat) (v : SymValue)
  | storeShouldReturn (inBlock : Nat)
  | liftInstruction (inBlock : Nat) (pc : Nat)
  | applyTypeHint (inBlock : Nat) (pc : Nat)
  | storeNextPCOut (inBlock : Nat)
  | retMemory (inBlock : Nat)
  deriving DecidableEq, Repr

/-- The block an event is emitted into (`none` for block creation itself). -/
def Event.emittedIn : Event → Option Nat
  | .createBlock _ => Option.none
  | .condBr b _ _ _ => some b
  | .br b _ => some b
  | .callIntrinsic b _ => some b
  | .setDoesNotReturn b => some b
  | .tailCallError b => some b
  | .storeNextPC b _ => some b
  | .storePC b _ => some b
  | .storeShouldReturn b => some b
  | .liftInstruction b _ => some b
  | .applyTypeHint b _ => some b
  | .storeNextPCOut b => some b
  | .retMemory b => some b

/-- Events emitted by `DoInterProceduralControlFlow` (the application of a
control-flow override), as opposed to structural block/branch events. -/
def Event.isOverrideEmission : Event → Bool
  | .callIntrinsic _ _ => true
  | .setDoesNotReturn _ => true
  | .tailCallError _ => true
  | .storeNextPC _ _ => true
  | .storePC _ _ => true
  | .storeShouldReturn _ => true
  | _ => false

/-- Block-creation events. -/
def Event.isCreateBlock : Event → Bool
  | .createBlock _ => true
  | _ => false

/-- The inputs of one `BasicBlockLifter`: the architecture decode entry points
(`options.arch->DecodeInstruction` and `MaxInstructionSize`), the memory
provider, the control-flow provider
(`options.control_flow_provider.GetControlFlowOverride`), the SPARC flag
(`is_sparc`), the block being lifted, and the target addresses of the type
hints of the owning function declaration. -/
structure LiftConfig where
  decodeInstruction : Nat → List Nat → Option Instruction
  maxInstSize : Nat
  memQuery : MemoryProvider
  getControlFlowOverride : Nat → ControlFlowOverride
  is_sparc : Bool
  block_def : CodeBlock
  type_hints : List Nat

/-- The `accumulate_inst_byte` lambda of `BasicBlockLifter::DecodeInstructionInto`:
a byte is appended exactly when it is available (availability not unknown or
unavailable) and its permissions are not readable-only or readable-writable. -/
def accumulate_inst_byte (avail : ByteAvailability) (perms : BytePermission) : Bool :=
  match avail with
  | .kUnknown => false
  | .kUnavailable => false
  | .kAvailable =>
    match perms with
    | .kUnknown => true
    | .kReadableExecutable => true
    | .kReadableWritableExecutable => true
    | .kReadable => false
    | .kReadableWritable => false

/-- The byte-gathering loop of `DecodeInstructionInto`: for `i` below
`max_inst_size` query `addr + i` and push the byte (as an 8-bit char, hence
`% 256`), breaking at the first byte `accumulate_inst_byte` rejects. -/
def accumBytes (mp : MemoryProvider) (addr : Nat) : Nat → List Nat
  | 0 => []
  | n + 1 =>
    let q := mp addr
    if accumulate_inst_byte q.2.1 q.2.2 then q.1 % 256 :: accumBytes mp (addr + 1) n
    else []

/-- `BasicBlockLifter::DecodeInstructionInto` at its only call site
(`is_delayed = false`): gather at most `maxInstSize` bytes starting at `addr`,
then hand the (possibly truncated) buffer to the architecture decoder. -/
def DecodeInstructionInto (cfg : LiftConfig) (addr : Nat) : Option Instruction :=
  cfg.decodeInstruction addr (accumBytes cfg.memQuery addr cfg.maxInstSize)

/-- One marker-byte inspection step of `LoadFunctionReturnAddress`: `none` when
the byte availability is unknown or unavailable, or its permissions are
readable or readable-writable (the two LOG(ERROR)-and-fall-back paths);
otherwise the byte value as a uint8. -/
def markerByte (q : MemoryQuery) : Option Nat :=
  match q.2.1 with
  | .kUnknown => Option.none
  | .kUnavailable => Option.none
  | .kAvailable =>
    match q.2.2 with
    | .kReadable => Option.none
    | .kReadableWritable => Option.none
    | _ => some (q.1 % 256)

/-- The four-byte inspection loop of `LoadFunctionReturnAddress`: reads
`pc .. pc+3`, failing at the first byte `markerByte` rejects. -/
def readMarkerBytes (mp : MemoryProvider) (pc : Nat) : Option (Nat × Nat × Nat × Nat) := do
  let b0 ← markerByte (mp pc)
  let b1 ← markerByte (mp (pc + 1))
  let b2 ← markerByte (mp (pc + 2))
  let b3 ← markerByte (mp (pc + 3))
  pure (b0, b1, b2, b3)

/-- The big-endian accumulation of the four marker bytes into the 32-bit
`Format0a::flat` field (`enc.flat <<= 8; enc.flat |= bytes[i]`). -/
def format0aFlat (b0 b1 b2 b3 : Nat) : Nat :=
  (((b0 * 256 + b1) * 256 + b2) * 256 + b3) % 2 ^ 32

/-- The SPARC `unimp <imm22>` marker test: bit fields `op` (bits 30..31) and
`op2` (bits 22..24) of `flat` are both zero. -/
def isUnimpMarker (flat : Nat) : Bool :=
  flat / 2 ^ 30 == 0 && (flat / 2 ^ 22) % 8 == 0

/-- `BasicBlockLifter::LoadFunctionReturnAddress`: the resume address after a
call, as a pair of the concrete address and the symbolic IR value stored for
it. Non-SPARC architectures return `inst.branch_not_taken_pc` and the loaded
return-pc variable unconditionally; on SPARC the four bytes at the fall-through
address are inspected and, only when all four are readable and
executable-or-unknown-permission and decode to the `unimp` marker, the resume
address is advanced past the marker by 4. -/
def LoadFunctionReturnAddress (cfg : LiftConfig) (inst : Instruction) : Nat × SymValue :=
  let pc := inst.branch_not_taken_pc
  let ret_pc := SymValue.retPCVar
  if !cfg.is_sparc then (pc, ret_pc)
  else
    match readMarkerBytes cfg.memQuery pc with
    | Option.none => (pc, ret_pc)
    | some (b0, b1, b2, b3) =>
      if isUnimpMarker (format0aFlat b0 b1 b2 b3) then
        (pc + 4, SymValue.addConst ret_pc 4)
      else (pc, ret_pc)

/-- True for the `std::holds_alternative<anvill::Call>(override)` test. -/
def isCallOverride : ControlFlowOverride → Bool
  | .call _ _ => true
  | _ => false

/-- True for the `std::holds_alternative<anvill::Return>(override)` test. -/
def isReturnOverride : ControlFlowOverride → Bool
  | .ret => true
  | _ => false

/-- `BasicBlockLifter::DoInterProceduralControlFlow`, emitting into IR block
`block`. Returns the events emitted and the boolean result of the C++ function
(`true` means the block may continue, `false` means it ended on a terminal
override). A Call emits the call intrinsic (with the constant target as
program-counter hint when present); with `stop` false the resume address
computed by `LoadFunctionReturnAddress` is stored into both the
next-program-counter and program-counter references and the result is `true`;
with `stop` true the call is marked non-returning, a terminating tail call to
the error intrinsic is added, and the result is `false`. A Return stores the
all-ones value into the `should_return` slot and returns `true`. Anything else
returns `true` with no emission. -/
def DoInterProceduralControlFlow (cfg : LiftConfig) (inst : Instruction)
    (block : Nat) (ov : ControlFlowOverride) : List Event × Bool :=
  match ov with
  | .call target stop =>
    if !stop then
      let raddr := (LoadFunctionReturnAddress cfg inst).2
      ([Event.callIntrinsic block target, Event.storeNextPC block raddr,
        Event.storePC block raddr], true)
    else
      ([Event.callIntrinsic block target, Event.setDoesNotReturn block,
        Event.tailCallError block], false)
  | .ret => ([Event.storeShouldReturn block], true)
  | _ => ([], true)

/-- The mutable lifting state of `LiftInstructionsIntoLiftedFunction`: the next
fresh IR block id, the current insertion block (the `bb` reference), and the
trace of emitted events. -/
structure LiftState where
  nextBlock : Nat
  curBlock : Nat
  events : List Event
  deriving DecidableEq, Repr

/-- `BasicBlockLifter::ApplyInterProceduralControlFlowOverride`. For a Call or
Return override on a conditionally executed instruction, two fresh IR blocks
are created (the taken path and the continuation), a conditional branch on the
loaded branch-taken flag is emitted, the override is applied in the taken
block, the taken block is joined back to the continuation when the override is
not terminal, the current block becomes the continuation, and the result is
`true`. For an unconditional instruction the override is applied in the current
block and its own result is returned. Other override kinds leave the state
unchanged and return `true`. -/
def ApplyInterProceduralControlFlowOverride (cfg : LiftConfig) (inst : Instruction)
    (st : LiftState) : LiftState × Bool :=
  let ov := cfg.getControlFlowOverride inst.pc
  if isCallOverride ov || isReturnOverride ov then
    if inst.conditional then
      let do_control_flow := st.nextBlock
      let continuation := st.nextBlock + 1
      let apres := DoInterProceduralControlFlow cfg inst do_control_flow ov
      let joinEvs := if apres.2 then apres.1 ++ [Event.br do_control_flow continuation]
        else apres.1
      ({ nextBlock := st.nextBlock + 2, curBlock := continuation,
         events := st.events ++
           [Event.createBlock do_control_flow, Event.createBlock continuation,
            Event.condBr st.curBlock SymValue.branchTaken do_control_flow continuation] ++
           joinEvs }, true)
    else
      let apres := DoInterProceduralControlFlow cfg inst st.curBlock ov
      ({ st with events := st.events ++ apres.1 }, apres.2)
  else (st, true)

/-- How the decoding loop of `LiftInstructionsIntoLiftedFunction` ended:
`rangeDone` is falling out of the `reached_addr < addr + size` test,
`terminal` is `ended_on_terminal`, `decodeFail` is the early `return` after a
failed decode, and `fuelOut` marks a run that exceeds the fuel bound (the C++
loop would diverge only if a successful decode consumed zero bytes). -/
inductive LoopExit
  | rangeDone
  | terminal
  | decodeFail
  | fuelOut
  deriving DecidableEq, Repr

/-- The result of the decoding loop: how it exited, the final `reached_addr`,
the byte lengths of the decoded instructions in order, and the lifting state. -/
structure LoopResult where
  exit : LoopExit
  reached_addr : Nat
  lens : List Nat
  st : LiftState
  deriving DecidableEq, Repr

/-- The decoding loop of `BasicBlockLifter::LiftInstructionsIntoLiftedFunction`:
while `reached_addr < block_def.addr + block_def.size` and the block has not
ended on a terminal override, decode at `reached_addr` (returning early with a
terminating error tail call on failure), advance `reached_addr` by the decoded
byte count, lift the instruction semantics, apply the type hints whose target
address equals the instruction pc, and apply the control-flow override. -/
def liftLoop (cfg : LiftConfig) : Nat → Nat → LiftState → LoopResult
  | 0, reached_addr, st =>
    if reached_addr < cfg.block_def.addr + cfg.block_def.size then
      ⟨LoopExit.fuelOut, reached_addr, [], st⟩
    else ⟨LoopExit.rangeDone, reached_addr, [], st⟩
  | fuel + 1, reached_addr, st =>
    if reached_addr < cfg.block_def.addr + cfg.block_def.size then
      match DecodeInstructionInto cfg reached_addr with
      | Option.none =>
        ⟨LoopExit.decodeFail, reached_addr, [],
          { st with events := st.events ++ [Event.tailCallError st.curBlock] }⟩
      | some inst =>
        let len := inst.bytes.length
        let st1 : LiftState := { st with
          events := st.events ++ [Event.liftInstruction st.curBlock inst.pc] ++
            (cfg.type_hints.filter (fun h => h == inst.pc)).map
              (fun h => Event.applyTypeHint st.curBlock h) }
        let ap := ApplyInterProceduralControlFlowOverride cfg inst st1
        if ap.2 then
          let r := liftLoop cfg fuel (reached_addr + len) ap.1
          ⟨r.exit, r.reached_addr, len :: r.lens, r.st⟩
        else ⟨LoopExit.terminal, reached_addr + len, [len], ap.1⟩
    else ⟨LoopExit.rangeDone, reached_addr, [], st⟩

/-- The initial lifting state of `LiftInstructionsIntoLiftedFunction`: block 0
is the entry block of the lifted function, block 1 is the freshly created body
block `bb`, and the entry branches to it. -/
def initLiftState : LiftState :=
  ⟨2, 1, [Event.createBlock 1, Event.br 0 1]⟩

/-- `BasicBlockLifter::LiftInstructionsIntoLiftedFunction`: run the decoding
loop from the block start; when the loop exhausted the byte range without a
terminal override, store the loaded next program counter into the out-parameter
and return the memory pointer (the fall-through exit). -/
def LiftInstructionsIntoLiftedFunction (cfg : LiftConfig) : LoopResult :=
  let r := liftLoop cfg cfg.block_def.size cfg.block_def.addr initLiftState
  if r.exit = LoopExit.rangeDone then
    { r with st := { r.st with events := r.st.events ++
        [Event.storeNextPCOut r.st.curBlock, Event.retMemory r.st.curBlock] } }
  else r

/-- Modelled from the spec: the orchestration of `FunctionLifter` over the
blocks of one function (FunctionLifter.cpp is not among the provided sources).
Each block is lifted independently by its own `BasicBlockLifter`; per the spec
sections 5 and 7, failures are resolved locally per block and never interrupt
sibling blocks, so the whole-function lift is the pointwise per-block lift. -/
def liftAllBlocks (cfgs : List LiftConfig) : List LoopResult :=
  cfgs.map LiftInstructionsIntoLiftedFunction

/-- Lookup in the uid-keyed block graph (`decl.cfg.at(edge_uid)`; `none`
models the exception on a missing uid). -/
def cfgAt (cfg : List (Nat × CodeBlock)) (uid : Nat) : Option CodeBlock :=
  (cfg.find? (fun p => p.1 == uid)).map (fun p => p.2)

/-- Lookup of every uid of a list in the block graph, in order; `none` as soon
as one uid is missing. -/
def cfgAtAll (cfg : List (Nat × CodeBlock)) : List Nat → Option (List CodeBlock)
  | [] => some []
  | u :: rest =>
    match cfgAt cfg u, cfgAtAll cfg rest with
    | some bb, some bbs => some (bb :: bbs)
    | _, _ => Option.none

/-- An emitted `llvm::SwitchInst`: the default destination block and the added
cases as (matched constant, destination block) pairs in insertion order. -/
structure SwitchInst where
  default_block : Nat
  cases : List (Nat × Nat)
  deriving DecidableEq, Repr

/-- The IR shape produced by `BasicBlockLifter::TerminateBasicBlockFunction`:
the three blocks it creates up front (`invalid_successor`, the jump block, the
return block), the set of blocks terminated by `llvm::UnreachableInst`, the
conditional branch on the loaded `should_return` flag as the pair (destination
when set, destination when clear), the switch on the loaded next-address, and
the per-successor forwarding blocks as (block id, successor uid) pairs. -/
structure TermResult where
  invalid_successor_block : Nat
  jump_block : Nat
  ret_block : Nat
  unreachable_blocks : List Nat
  should_return_branch : Nat × Nat
  switch_inst : SwitchInst
  calling_blocks : List (Nat × Nat)
  deriving DecidableEq, Repr

/-- The per-edge loop of `TerminateBasicBlockFunction`: for each uid in
`outgoing_edges`, create a fresh forwarding block that tail-calls the successor
lifted function, and add a switch case whose matched constant is the declared
start address of the successor block looked up in `decl.cfg`; a missing uid
raises (modelled as `none`). Returns the (constant, block) case list and the
(block, uid) forwarding list. -/
def buildEdgeCases (cfg : List (Nat × CodeBlock)) :
    List Nat → Nat → Option (List (Nat × Nat) × List (Nat × Nat))
  | [], _ => some ([], [])
  | uid :: rest, fresh =>
    match cfgAt cfg uid with
    | Option.none => Option.none
    | some edge_bb =>
      match buildEdgeCases cfg rest (fresh + 1) with
      | Option.none => Option.none
      | some (cs, fwds) => some ((edge_bb.addr, fresh) :: cs, (fresh, uid) :: fwds)

/-- `BasicBlockLifter::TerminateBasicBlockFunction`: create the
`invalid_successor` block (terminated by unreachable), the jump block and the
return block; branch on the loaded `should_return` flag to the return block or
the jump block; in the jump block, switch on the loaded next-address with
default `invalid_successor`, adding one case per successor uid whose matched
constant is the declared start address of that successor. Block ids: 0 is
`invalid_successor`, 1 the jump block, 2 the return block, 3.. the forwarding
blocks in edge order. -/
def TerminateBasicBlockFunction (decl : FunctionDecl) (block_def : CodeBlock) :
    Option TermResult :=
  match buildEdgeCases decl.cfg block_def.outgoing_edges 3 with
  | Option.none => Option.none
  | some (cs, fwds) =>
    some { invalid_successor_block := 0, jump_block := 1, ret_block := 2,
           unreachable_blocks := [0],
           should_return_branch := (2, 1),
           switch_inst := { default_block := 0, cases := cs },
           calling_blocks := fwds }

/-- A storage location of a declared value (`anvill::LowLoc`): a register or a
(stack offset, size) memory reference. -/
inductive LowLoc
  | reg (r : Nat)
  | mem (offset : Int) (size : Nat)
  deriving DecidableEq, Repr

/-- Register locations. -/
def LowLoc.isReg : LowLoc → Bool
  | .reg _ => true
  | .mem _ _ => false

/-- Memory locations. -/
def LowLoc.isMem : LowLoc → Bool
  | .reg _ => false
  | .mem _ _ => true

/-- `anvill::ParameterDecl`, restricted to what Pack/Unpack read: an identifier
(standing for the struct slot the variable occupies) and the ordered storage
locations (the source field is spelled `oredered_locs`). -/
structure ParameterDecl where
  name : Nat
  oredered_locs : List LowLoc
  deriving DecidableEq, Repr

/-- `anvill::BasicBlockVariable`: a parameter declaration (the provenance flag
is subsumed by the `HasMemLoc` test Pack/Unpack perform). -/
structure BasicBlockVariable where
  param : ParameterDecl
  deriving DecidableEq, Repr

/-- `anvill::HasMemLoc`: some storage location is a memory reference. -/
def HasMemLoc (p : ParameterDecl) : Bool :=
  p.oredered_locs.any LowLoc.isMem

/-- `anvill::HasRegLoc`: some storage location is a register. -/
def HasRegLoc (p : ParameterDecl) : Bool :=
  p.oredered_locs.any LowLoc.isReg

/-- Modelled from the spec: the block register-state representation that
`LoadLiftedValue` and `StoreNativeValue` (anvill/Utils, not among the provided
sources) read and write. Per the spec, unpacking stores a struct-slot value
into the declared storage locations and packing reads it back, so the state is
a cell-valued map over storage locations. -/
abbrev MachineState := LowLoc → Nat

/-- Write one storage cell. -/
def writeLoc (s : MachineState) (l : LowLoc) (v : Nat) : MachineState :=
  fun x => if x = l then v else s x

/-- Write a list of (location, value) cells left to right. -/
def writeLocs (pairs : List (LowLoc × Nat)) (s : MachineState) : MachineState :=
  pairs.foldl (fun acc lv => writeLoc acc lv.1 lv.2) s

/-- Modelled from the spec: `StoreNativeValue` distributes a struct-slot value
(one cell per storage location) over the declared ordered locations. -/
def StoreNativeValue (p : ParameterDecl) (v : List Nat) (s : MachineState) : MachineState :=
  writeLocs (p.oredered_locs.zip v) s

/-- Modelled from the spec: `LoadLiftedValue` reads the declared ordered
locations back out of the state. -/
def LoadLiftedValue (p : ParameterDecl) (s : MachineState) : List Nat :=
  p.oredered_locs.map s

/-- The struct interface of a block function: the value held in the slot of
each declared variable. -/
abbrev VarStruct := ParameterDecl → List Nat

/-- Write one struct slot. -/
def writeSlot (x : VarStruct) (p : ParameterDecl) (v : List Nat) : VarStruct :=
  fun q => if q = p then v else x q

/-- `BasicBlockLifter::UnpackLiveValues`: for each declared live variable with
no memory storage, read its value from the caller-supplied struct slot and
store it into the register-state representation; a variable with both memory
and register storage trips `CHECK(!HasRegLoc(decl.param))` (modelled as
`none`); a variable with memory-only storage is skipped. -/
def UnpackLiveValues (decls : List BasicBlockVariable) (x : VarStruct)
    (s : MachineState) : Option MachineState :=
  match decls with
  | [] => some s
  | d :: rest =>
    if !HasMemLoc d.param then
      UnpackLiveValues rest x (StoreNativeValue d.param (x d.param) s)
    else if HasRegLoc d.param then Option.none
    else UnpackLiveValues rest x s

/-- `BasicBlockLifter::PackLiveValues`: the inverse direction — for each
declared live variable with no memory storage, read its current value out of
the register-state representation and write it into the output struct slot;
split storage trips the same check. -/
def PackLiveValues (decls : List BasicBlockVariable) (s : MachineState)
    (x : VarStruct) : Option VarStruct :=
  match decls with
  | [] => some x
  | d :: rest =>
    if !HasMemLoc d.param then
      PackLiveValues rest s (writeSlot x d.param (LoadLiftedValue d.param s))
    else if HasRegLoc d.param then Option.none
    else PackLiveValues rest s x

/-- Running `PackLiveValues` immediately after `UnpackLiveValues` on the same
declaration list, as `CreateBasicBlockFunction` does around the call into the
lifted function. -/
def packAfterUnpack (decls : List BasicBlockVariable) (x : VarStruct)
    (s : MachineState) : Option VarStruct :=
  (UnpackLiveValues decls x s).bind (fun s1 => PackLiveValues decls s1 x)

/-- `Specification::operator==` (Specification.h): pointer equality of the
pimpl pointers; `impl` stands for the value of `impl.get()`. -/
structure Specification where
  impl : Nat
  deriving DecidableEq, Repr

/-- `Specification::operator==`: `return impl.get() == that.impl.get();`. -/
def Specification.operatorEq (a b : Specification) : Bool :=
  a.impl == b.impl

/-- `Specification::operator!=` exactly as written in Specification.h lines
194..196: `return impl.get() == that.impl.get();` (note: the same body as
`operator==`, not its negation). -/
def Specification.operatorNe (a b : Specification) : Bool :=
  a.impl == b.impl

/-! ## Helper lemmas -/

/-- The byte-gathering loop never gathers more than the maximum instruction size. -/
theorem accumBytes_length_le (mp : MemoryProvider) (addr n : Nat) :
    (accumBytes mp addr n).length ≤ n := by
  induction n generalizing addr with
  | zero => simp [accumBytes]
  | succ k ih =>
    simp only [accumBytes]
    split
    · simpa using Nat.succ_le_succ (ih (addr + 1))
    · simp

/-- The gathered buffer is exactly the bytes of the maximal prefix of
`addr, addr+1, ...` every byte of which `accumulate_inst_byte` accepts. -/
theorem accumBytes_eq_takeWhile (mp : MemoryProvider) (addr n : Nat) :
    accumBytes mp addr n =
      ((List.range' addr n).takeWhile
          (fun a => accumulate_inst_byte (mp a).2.1 (mp a).2.2)).map
        (fun a => (mp a).1 % 256) := by
  induction n generalizing addr with
  | zero => simp [accumBytes]
  | succ k ih =>
    rw [List.range'_succ, List.takeWhile_cons]
    by_cases h : accumulate_inst_byte (mp addr).2.1 (mp addr).2.2
    · simp [accumBytes, h, ih]
    · simp [accumBytes, h]

/-- Claim C7: `DecodeInstructionInto` queries the byte provider for at most the
architecture maximum instruction length starting at the given address, stops
accumulating at the first byte that is unavailable or non-executable (the
gathered buffer is the maximal accepted prefix of the queried range), and then
invokes the architecture decoder on the possibly truncated buffer it gathered;
truncation itself never aborts decoding. -/
theorem decode_gathers_truncated_bytes (cfg : LiftConfig) (addr : Nat) :
    (accumBytes cfg.memQuery addr cfg.maxInstSize).length ≤ cfg.maxInstSize
    ∧ accumBytes cfg.memQuery addr cfg.maxInstSize =
        ((List.range' addr cfg.maxInstSize).takeWhile
            (fun a => accumulate_inst_byte (cfg.memQuery a).2.1 (cfg.memQuery a).2.2)).map
          (fun a => (cfg.memQuery a).1 % 256)
    ∧ DecodeInstructionInto cfg addr =
        cfg.decodeInstruction addr (accumBytes cfg.memQuery addr cfg.maxInstSize) :=
  ⟨accumBytes_length_le cfg.memQuery addr cfg.maxInstSize,
   accumBytes_eq_takeWhile cfg.memQuery addr cfg.maxInstSize, rfl⟩

/-- Claim C10 (code bug): `Specification::operator!=` is written with the same
body as `operator==`, so comparing a `Specification` value with itself makes
`!=` return `true` while `==` also returns `true`; `!=` is not the negation of
`==` as the claim states. -/
theorem specification_ne_equals_eq :
    Specification.operatorNe ⟨0⟩ ⟨0⟩ = true
    ∧ Specification.operatorEq ⟨0⟩ ⟨0⟩ = true
    ∧ Specification.operatorNe ⟨0⟩ ⟨0⟩ ≠ (!Specification.operatorEq ⟨0⟩ ⟨0⟩) := by
  decide

/-- Claim C8: an unconditional Call override with `stop = false` emits the call
intrinsic and stores the resume address computed by `LoadFunctionReturnAddress`
into both the next-program-counter and the program-counter state, leaving the
block non-terminal; with `stop = true` it marks the call non-returning, adds a
terminating tail call to the error intrinsic, and reports the block terminal,
which makes the decoding loop end the block on `terminal`. -/
theorem call_override_resume_or_trap (cfg : LiftConfig) (inst : Instruction)
    (block : Nat) (target : Option Nat) :
    DoInterProceduralControlFlow cfg inst block (ControlFlowOverride.call target false) =
      ([Event.callIntrinsic block target,
        Event.storeNextPC block (LoadFunctionReturnAddress cfg inst).2,
        Event.storePC block (LoadFunctionReturnAddress cfg inst).2], true)
    ∧ DoInterProceduralControlFlow cfg inst block (ControlFlowOverride.call target true) =
      ([Event.callIntrinsic block target, Event.setDoesNotReturn block,
        Event.tailCallError block], false)
    ∧ (∀ fuel reached_addr st, reached_addr < cfg.block_def.addr + cfg.block_def.size →
        DecodeInstructionInto cfg reached_addr = some inst →
        inst.conditional = false →
        cfg.getControlFlowOverride inst.pc = ControlFlowOverride.call target true →
        (liftLoop cfg (fuel + 1) reached_addr st).exit = LoopExit.terminal) := by
  refine ⟨rfl, rfl, ?_⟩
  intro fuel reached_addr st hlt hdec hcond hov
  simp only [liftLoop, if_pos hlt, hdec]
  simp [ApplyInterProceduralControlFlowOverride, hov, hcond, isCallOverride,
    DoInterProceduralControlFlow]

/-- Concrete configuration used by witnesses: one-byte instructions, a Call
override with `stop = true` at address 0, a block of two bytes at address 0. -/
def callStopCfg : LiftConfig :=
  { decodeInstruction := fun a _ => some ⟨a, [0], a + 1, false⟩,
    maxInstSize := 1,
    memQuery := fun _ => (0, ByteAvailability.kAvailable, BytePermission.kReadableExecutable),
    getControlFlowOverride := fun a =>
      if a == 0 then ControlFlowOverride.call (some 77) true else ControlFlowOverride.none,
    is_sparc := false,
    block_def := { addr := 0, size := 2, uid := 0, outgoing_edges := [] },
    type_hints := [] }

/-- Witness for claim C8: at the concrete configuration `callStopCfg`, the
stopping Call override at address 0 makes the decoding loop end on `terminal`. -/
theorem call_override_resume_or_trap_witness :
    (liftLoop callStopCfg 2 0 initLiftState).exit = LoopExit.terminal :=
  (call_override_resume_or_trap callStopCfg ⟨0, [0], 1, false⟩ 1 (some 77)).2.2
    1 0 initLiftState (by decide) (by decide) (by decide) (by decide)

/-- Claim C2 is corrected: an unconditional Return override does not terminate
the decoding loop. `DoInterProceduralControlFlow` only stores the all-ones
value into the `should_return` slot and returns `true` (non-terminal), and the
block terminator later branches on that flag to the return block instead of
the successor dispatch. This theorem states the amended claim. -/
theorem return_override_sets_should_return_flag (cfg : LiftConfig)
    (inst : Instruction) (block : Nat) :
    DoInterProceduralControlFlow cfg inst block ControlFlowOverride.ret =
      ([Event.storeShouldReturn block], true)
    ∧ (∀ decl block_def r, TerminateBasicBlockFunction decl block_def = some r →
        r.should_return_branch = (r.ret_block, r.jump_block)) := by
  refine ⟨rfl, ?_⟩
  intro decl block_def r h
  unfold TerminateBasicBlockFunction at h
  split at h
  · exact absurd h (by simp)
  · rename_i cs fwds heq
    cases h
    rfl

/-- Concrete configuration for the C2 counterexample: a two-byte block of
one-byte instructions with an unconditional Return override at address 0. -/
def returnMidBlockCfg : LiftConfig :=
  { decodeInstruction := fun a _ => some ⟨a, [0], a + 1, false⟩,
    maxInstSize := 1,
    memQuery := fun _ => (0, ByteAvailability.kAvailable, BytePermission.kReadableExecutable),
    getControlFlowOverride := fun a =>
      if a == 0 then ControlFlowOverride.ret else ControlFlowOverride.none,
    is_sparc := false,
    block_def := { addr := 0, size := 2, uid := 0, outgoing_edges := [] },
    type_hints := [] }

/-- Counterexample to claim C2 as stated: with an unconditional Return override
at the first instruction of `returnMidBlockCfg`, the should-return store is
emitted, yet the decoding loop does not stop there — the instruction at
address 1 is still decoded and lifted and the loop ends by exhausting the byte
range (`rangeDone`), not in the terminal state. -/
theorem return_override_does_not_stop_decoding :
    returnMidBlockCfg.getControlFlowOverride 0 = ControlFlowOverride.ret
    ∧ Event.storeShouldReturn 1 ∈
        (LiftInstructionsIntoLiftedFunction returnMidBlockCfg).st.events
    ∧ Event.liftInstruction 1 1 ∈
        (LiftInstructionsIntoLiftedFunction returnMidBlockCfg).st.events
    ∧ (LiftInstructionsIntoLiftedFunction returnMidBlockCfg).exit = LoopExit.rangeDone := by
  decide

/-- Witness for claim C2 (amended): the Return branch at a concrete input, with
the terminator branch hypothesis discharged on a concrete block graph. -/
theorem return_override_sets_should_return_flag_witness :
    DoInterProceduralControlFlow returnMidBlockCfg ⟨0, [0], 1, false⟩ 1
        ControlFlowOverride.ret = ([Event.storeShouldReturn 1], true)
    ∧ (TerminateBasicBlockFunction ⟨0, []⟩
        { addr := 0, size := 2, uid := 0, outgoing_edges := [] }).elim True
        (fun r => r.should_return_branch = (r.ret_block, r.jump_block)) := by
  have h := return_override_sets_should_return_flag returnMidBlockCfg ⟨0, [0], 1, false⟩ 1
  refine ⟨h.1, ?_⟩
  have h2 := h.2 ⟨0, []⟩ { addr := 0, size := 2, uid := 0, outgoing_edges := [] }
  cases heq : TerminateBasicBlockFunction ⟨0, []⟩
      { addr := 0, size := 2, uid := 0, outgoing_edges := [] } with
  | none => exact trivial
  | some r => exact h2 r heq

/-- If any of the four marker-byte inspections fails, the whole four-byte read
fails (the C++ loop returns the uncorrected address at the first bad byte). -/
theorem readMarkerBytes_eq_none (mp : MemoryProvider) (pc : Nat)
    (h : markerByte (mp pc) = Option.none
      ∨ markerByte (mp (pc + 1)) = Option.none
      ∨ markerByte (mp (pc + 2)) = Option.none
      ∨ markerByte (mp (pc + 3)) = Option.none) :
    readMarkerBytes mp pc = Option.none := by
  cases h0 : markerByte (mp pc) <;>
    cases h1 : markerByte (mp (pc + 1)) <;>
    cases h2 : markerByte (mp (pc + 2)) <;>
    cases h3 : markerByte (mp (pc + 3)) <;>
    simp_all [readMarkerBytes]

/-- Claim C9 is corrected: the fallback direction holds — a marker byte that is
unavailable (or of unknown availability) or whose permissions are readable or
readable-writable makes `LoadFunctionReturnAddress` return the uncorrected
nominal fall-through address, non-fatally. But the advancement condition is
weaker than the claim states: bytes whose permissions are unknown are also
accepted, so the resume address is advanced whenever all four bytes are
available with executable-or-unknown permissions and decode to the marker
pattern. This theorem states the amended claim. -/
theorem return_address_correction_fallback (cfg : LiftConfig) (inst : Instruction) :
    (∀ q : MemoryQuery, markerByte q = Option.none ↔
        (q.2.1 = ByteAvailability.kUnknown ∨ q.2.1 = ByteAvailability.kUnavailable ∨
         q.2.2 = BytePermission.kReadable ∨ q.2.2 = BytePermission.kReadableWritable))
    ∧ (cfg.is_sparc = true →
        (markerByte (cfg.memQuery inst.branch_not_taken_pc) = Option.none ∨
         markerByte (cfg.memQuery (inst.branch_not_taken_pc + 1)) = Option.none ∨
         markerByte (cfg.memQuery (inst.branch_not_taken_pc + 2)) = Option.none ∨
         markerByte (cfg.memQuery (inst.branch_not_taken_pc + 3)) = Option.none) →
        LoadFunctionReturnAddress cfg inst = (inst.branch_not_taken_pc, SymValue.retPCVar))
    ∧ (∀ b0 b1 b2 b3, cfg.is_sparc = true →
        readMarkerBytes cfg.memQuery inst.branch_not_taken_pc = some (b0, b1, b2, b3) →
        LoadFunctionReturnAddress cfg inst =
          (if isUnimpMarker (format0aFlat b0 b1 b2 b3) then
            (inst.branch_not_taken_pc + 4, SymValue.addConst SymValue.retPCVar 4)
          else (inst.branch_not_taken_pc, SymValue.retPCVar))) := by
  refine ⟨?_, ?_, ?_⟩
  · intro q
    obtain ⟨b, av, pe⟩ := q
    cases av <;> cases pe <;> simp [markerByte]
  · intro hsparc hbad
    have hread := readMarkerBytes_eq_none cfg.memQuery inst.branch_not_taken_pc hbad
    simp [LoadFunctionReturnAddress, hsparc, hread]
  · intro b0 b1 b2 b3 hsparc hread
    simp [LoadFunctionReturnAddress, hsparc, hread]

/-- A SPARC configuration whose memory is readable but not executable. -/
def sparcBadPermCfg : LiftConfig :=
  { decodeInstruction := fun _ _ => Option.none,
    maxInstSize := 4,
    memQuery := fun _ => (0, ByteAvailability.kAvailable, BytePermission.kReadable),
    getControlFlowOverride := fun _ => ControlFlowOverride.none,
    is_sparc := true,
    block_def := { addr := 0, size := 4, uid := 0, outgoing_edges := [] },
    type_hints := [] }

/-- Witness for claim C9 (amended): on `sparcBadPermCfg`, whose marker bytes
are readable but not executable, the resume address falls back to the
uncorrected nominal fall-through address. -/
theorem return_address_correction_fallback_witness :
    LoadFunctionReturnAddress sparcBadPermCfg ⟨0, [0], 100, false⟩ =
      (100, SymValue.retPCVar) :=
  (return_address_correction_fallback sparcBadPermCfg ⟨0, [0], 100, false⟩).2.1
    (by decide) (Or.inl (by decide))

/-- A SPARC configuration whose memory is available with unknown permissions
and holds the all-zero word, which decodes as the `unimp 0` marker. -/
def sparcUnknownPermCfg : LiftConfig :=
  { decodeInstruction := fun _ _ => Option.none,
    maxInstSize := 4,
    memQuery := fun _ => (0, ByteAvailability.kAvailable, BytePermission.kUnknown),
    getControlFlowOverride := fun _ => ControlFlowOverride.none,
    is_sparc := true,
    block_def := { addr := 0, size := 4, uid := 0, outgoing_edges := [] },
    type_hints := [] }

/-- Counterexample to claim C9 as stated: all four marker bytes have unknown
permissions — none of them is readable-executable — yet the resume address is
still advanced past the marker (104 instead of the fall-through 100). -/
theorem marker_advance_with_unknown_permission :
    sparcUnknownPermCfg.is_sparc = true
    ∧ (sparcUnknownPermCfg.memQuery 100).2.2 = BytePermission.kUnknown
    ∧ (sparcUnknownPermCfg.memQuery 101).2.2 = BytePermission.kUnknown
    ∧ (sparcUnknownPermCfg.memQuery 102).2.2 = BytePermission.kUnknown
    ∧ (sparcUnknownPermCfg.memQuery 103).2.2 = BytePermission.kUnknown
    ∧ (LoadFunctionReturnAddress sparcUnknownPermCfg ⟨0, [0], 100, false⟩).1 = 104 := by
  decide

/-- Claim C3: for a Call or Return override attached to a conditionally
executed instruction, `ApplyInterProceduralControlFlowOverride` creates exactly
two new IR blocks — the taken-path block `st.nextBlock` and the continuation
block `st.nextBlock + 1` — branches on the loaded branch-taken flag, emits
every override event only into the taken-path block, joins the taken path back
to the continuation exactly when the override does not terminate the block,
and always reports non-terminal with lifting continuing in the continuation. -/
theorem conditional_override_splits_into_two_blocks (cfg : LiftConfig)
    (inst : Instruction) (st : LiftState)
    (hcond : inst.conditional = true)
    (hov : isCallOverride (cfg.getControlFlowOverride inst.pc) = true
         ∨ isReturnOverride (cfg.getControlFlowOverride inst.pc) = true) :
    (ApplyInterProceduralControlFlowOverride cfg inst st).2 = true
    ∧ (ApplyInterProceduralControlFlowOverride cfg inst st).1.curBlock = st.nextBlock + 1
    ∧ (ApplyInterProceduralControlFlowOverride cfg inst st).1.nextBlock = st.nextBlock + 2
    ∧ ∃ new,
        (ApplyInterProceduralControlFlowOverride cfg inst st).1.events = st.events ++ new
        ∧ (new.filter Event.isCreateBlock).length = 2
        ∧ Event.createBlock st.nextBlock ∈ new
        ∧ Event.createBlock (st.nextBlock + 1) ∈ new
        ∧ Event.condBr st.curBlock SymValue.branchTaken st.nextBlock (st.nextBlock + 1) ∈ new
        ∧ (∀ e ∈ new, e.isOverrideEmission = true → e.emittedIn = some st.nextBlock)
        ∧ ((DoInterProceduralControlFlow cfg inst st.nextBlock
              (cfg.getControlFlowOverride inst.pc)).2 = true ↔
            Event.br st.nextBlock (st.nextBlock + 1) ∈ new) := by
  cases hcase : cfg.getControlFlowOverride inst.pc with
  | call target stop =>
    cases stop with
    | false =>
      simp only [ApplyInterProceduralControlFlowOverride, hcase, hcond,
        DoInterProceduralControlFlow, isCallOverride, isReturnOverride]
      refine ⟨by simp, by simp, by simp, ?_⟩
      refine ⟨[Event.createBlock st.nextBlock, Event.createBlock (st.nextBlock + 1),
          Event.condBr st.curBlock SymValue.branchTaken st.nextBlock (st.nextBlock + 1),
          Event.callIntrinsic st.nextBlock target,
          Event.storeNextPC st.nextBlock (LoadFunctionReturnAddress cfg inst).2,
          Event.storePC st.nextBlock (LoadFunctionReturnAddress cfg inst).2,
          Event.br st.nextBlock (st.nextBlock + 1)],
        by simp, ?_, ?_, ?_, ?_, ?_, ?_⟩ <;>
        simp [Event.isCreateBlock, Event.isOverrideEmission, Event.emittedIn,
          List.filter]
    | true =>
      simp only [ApplyInterProceduralControlFlowOverride, hcase, hcond,
        DoInterProceduralControlFlow, isCallOverride, isReturnOverride]
      refine ⟨by simp, by simp, by simp, ?_⟩
      refine ⟨[Event.createBlock st.nextBlock, Event.createBlock (st.nextBlock + 1),
          Event.condBr st.curBlock SymValue.branchTaken st.nextBlock (st.nextBlock + 1),
          Event.callIntrinsic st.nextBlock target, Event.setDoesNotReturn st.nextBlock,
          Event.tailCallError st.nextBlock],
        by simp, ?_, ?_, ?_, ?_, ?_, ?_⟩ <;>
        simp [Event.isCreateBlock, Event.isOverrideEmission, Event.emittedIn,
          List.filter]
  | ret =>
    simp only [ApplyInterProceduralControlFlowOverride, hcase, hcond,
      DoInterProceduralControlFlow, isCallOverride, isReturnOverride]
    refine ⟨by simp, by simp, by simp, ?_⟩
    refine ⟨[Event.createBlock st.nextBlock, Event.createBlock (st.nextBlock + 1),
        Event.condBr st.curBlock SymValue.branchTaken st.nextBlock (st.nextBlock + 1),
        Event.storeShouldReturn st.nextBlock, Event.br st.nextBlock (st.nextBlock + 1)],
      by simp, ?_, ?_, ?_, ?_, ?_, ?_⟩ <;>
      simp [Event.isCreateBlock, Event.isOverrideEmission, Event.emittedIn,
        List.filter]
  | none => rw [hcase] at hov; simp [isCallOverride, isReturnOverride] at hov
  | jump => rw [hcase] at hov; simp [isCallOverride, isReturnOverride] at hov
  | misc stop => rw [hcase] at hov; simp [isCallOverride, isReturnOverride] at hov

/-- A configuration whose control-flow provider reports a non-stopping Call
override everywhere, paired below with a conditionally executed instruction. -/
def condCallCfg : LiftConfig :=
  { decodeInstruction := fun a _ => some ⟨a, [0], a + 1, true⟩,
    maxInstSize := 1,
    memQuery := fun _ => (0, ByteAvailability.kAvailable, BytePermission.kReadableExecutable),
    getControlFlowOverride := fun _ => ControlFlowOverride.call (some 42) false,
    is_sparc := false,
    block_def := { addr := 0, size := 1, uid := 0, outgoing_edges := [] },
    type_hints := [] }

/-- A conditionally executed instruction at address 0. -/
def condInst : Instruction := ⟨0, [0], 1, true⟩

/-- Witness for claim C3: the conditional Call override on `condCallCfg`
reports non-terminal, continues in the fresh continuation block 3, and used
exactly the two fresh block ids 2 and 3. -/
theorem conditional_override_splits_witness :
    (ApplyInterProceduralControlFlowOverride condCallCfg condInst initLiftState).2 = true
    ∧ (ApplyInterProceduralControlFlowOverride condCallCfg condInst
        initLiftState).1.curBlock = initLiftState.nextBlock + 1
    ∧ (ApplyInterProceduralControlFlowOverride condCallCfg condInst
        initLiftState).1.nextBlock = initLiftState.nextBlock + 2 :=
  have h := conditional_override_splits_into_two_blocks condCallCfg condInst
    initLiftState rfl (Or.inl rfl)
  ⟨h.1, h.2.1, h.2.2.1⟩

/-- Structure of the per-edge case construction: when every successor uid
resolves in the block graph, the switch cases are produced in edge order, one
per uid, with the declared start address of the resolved block as the matched
constant. -/
theorem buildEdgeCases_spec (cfg : List (Nat × CodeBlock)) (uids : List Nat)
    (bbs : List CodeBlock) (fresh : Nat)
    (h : cfgAtAll cfg uids = some bbs) :
    ∃ cs fwds, buildEdgeCases cfg uids fresh = some (cs, fwds)
      ∧ cs.map Prod.fst = bbs.map CodeBlock.addr
      ∧ cs.length = uids.length := by
  induction uids generalizing bbs fresh with
  | nil =>
    simp only [cfgAtAll, Option.some.injEq] at h
    subst h
    exact ⟨[], [], rfl, rfl, rfl⟩
  | cons u rest ih =>
    cases hu : cfgAt cfg u with
    | none => simp [cfgAtAll, hu] at h
    | some bb =>
      cases hrest : cfgAtAll cfg rest with
      | none => simp [cfgAtAll, hu, hrest] at h
      | some bbs2 =>
        have hb : bb :: bbs2 = bbs := by simpa [cfgAtAll, hu, hrest] using h
        subst hb
        obtain ⟨cs, fwds, hbuild, hmap, hlen⟩ := ih bbs2 (fresh + 1) hrest
        refine ⟨(bb.addr, fresh) :: cs, (fresh, u) :: fwds, ?_, ?_, ?_⟩
        · simp [buildEdgeCases, hu, hbuild]
        · simp [hmap]
        · simp [hlen]

/-- Claim C4: for a block whose successor uids all resolve in the owning
function block graph, `TerminateBasicBlockFunction` produces a switch with
exactly one case per successor uid plus the default routed to the unreachable
`invalid_successor` trap block, and the matched constant of each case is the
declared start address of the successor block with that uid. -/
theorem terminate_dispatch_cases_match_successors (decl : FunctionDecl)
    (block_def : CodeBlock) (bbs : List CodeBlock)
    (h : cfgAtAll decl.cfg block_def.outgoing_edges = some bbs) :
    ∃ r, TerminateBasicBlockFunction decl block_def = some r
      ∧ r.switch_inst.cases.length = block_def.outgoing_edges.length
      ∧ r.switch_inst.cases.map Prod.fst = bbs.map CodeBlock.addr
      ∧ r.switch_inst.default_block = r.invalid_successor_block
      ∧ r.unreachable_blocks = [r.invalid_successor_block] := by
  obtain ⟨cs, fwds, hbuild, hmap, hlen⟩ := buildEdgeCases_spec decl.cfg
    block_def.outgoing_edges bbs 3 h
  refine ⟨{ invalid_successor_block := 0, jump_block := 1, ret_block := 2,
            unreachable_blocks := [0], should_return_branch := (2, 1),
            switch_inst := { default_block := 0, cases := cs },
            calling_blocks := fwds }, ?_, ?_, ?_, rfl, rfl⟩
  · simp [TerminateBasicBlockFunction, hbuild]
  · simpa using hlen
  · simpa using hmap

/-- Witness for claim C4: a block with one declared successor (uid 5 at
address 100) produces one case matching 100 plus the unreachable default. -/
theorem terminate_dispatch_witness :
    ∃ r, TerminateBasicBlockFunction ⟨0, [(5, ⟨100, 4, 5, []⟩)]⟩ ⟨0, 2, 0, [5]⟩ = some r
      ∧ r.switch_inst.cases.length = 1
      ∧ r.switch_inst.cases.map Prod.fst = [100]
      ∧ r.switch_inst.default_block = r.invalid_successor_block
      ∧ r.unreachable_blocks = [r.invalid_successor_block] := by
  have h := terminate_dispatch_cases_match_successors ⟨0, [(5, ⟨100, 4, 5, []⟩)]⟩
    ⟨0, 2, 0, [5]⟩ [⟨100, 4, 5, []⟩] (by decide)
  simpa using h

/-- Claim C6: a decode failure mid-block emits a terminating tail call to the
error intrinsic into the current IR block and stops the decoding loop of that
block only (the `decodeFail` exit of the loop, a plain early return, not an
abort); across blocks, lifting is pointwise, so the outcome of every block is
a function of its own configuration alone and a decode failure in one block
leaves every sibling block result unchanged. -/
theorem decode_failure_traps_and_is_local (cfg : LiftConfig) :
    (∀ fuel reached_addr st,
        reached_addr < cfg.block_def.addr + cfg.block_def.size →
        DecodeInstructionInto cfg reached_addr = Option.none →
        liftLoop cfg (fuel + 1) reached_addr st =
          ⟨LoopExit.decodeFail, reached_addr, [],
            { st with events := st.events ++ [Event.tailCallError st.curBlock] }⟩)
    ∧ (∀ cfgs : List LiftConfig, ∀ i : Nat,
        (liftAllBlocks cfgs).get? i = (cfgs.get? i).map LiftInstructionsIntoLiftedFunction) := by
  constructor
  · intro fuel reached_addr st hlt hdec
    simp [liftLoop, hlt, hdec]
  · intro cfgs i
    simp [liftAllBlocks]

/-- A configuration on which every decode fails. -/
def decodeFailCfg : LiftConfig :=
  { decodeInstruction := fun _ _ => Option.none,
    maxInstSize := 1,
    memQuery := fun _ => (0, ByteAvailability.kAvailable, BytePermission.kReadableExecutable),
    getControlFlowOverride := fun _ => ControlFlowOverride.none,
    is_sparc := false,
    block_def := { addr := 0, size := 1, uid := 0, outgoing_edges := [] },
    type_hints := [] }

/-- Witness for claim C6: on `decodeFailCfg` the loop stops at once with the
error trap appended to the trace, and the two-block lift of a failing and a
healthy block still produces the healthy block result at index 1. -/
theorem decode_failure_traps_witness :
    liftLoop decodeFailCfg 1 0 initLiftState =
      ⟨LoopExit.decodeFail, 0, [],
        { initLiftState with
          events := initLiftState.events ++ [Event.tailCallError initLiftState.curBlock] }⟩
    ∧ (liftAllBlocks [decodeFailCfg, returnMidBlockCfg]).get? 1 =
        some (LiftInstructionsIntoLiftedFunction returnMidBlockCfg) :=
  ⟨(decode_failure_traps_and_is_local decodeFailCfg).1 0 0 initLiftState
      (by decide) (by decide),
   (decode_failure_traps_and_is_local decodeFailCfg).2 [decodeFailCfg, returnMidBlockCfg] 1⟩

/-- The final `reached_addr` of the decoding loop is its starting point plus
the sum of the decoded instruction byte lengths (loop step
`reached_addr += inst.bytes.size()`). -/
theorem liftLoop_reached_eq_sum (cfg : LiftConfig) :
    ∀ fuel reached_addr st r, liftLoop cfg fuel reached_addr st = r →
      r.reached_addr = reached_addr + r.lens.sum := by
  intro fuel
  induction fuel with
  | zero =>
    intro reached_addr st r hr
    simp only [liftLoop] at hr
    split at hr <;> cases hr <;> simp
  | succ k ih =>
    intro reached_addr st r hr
    simp only [liftLoop] at hr
    split at hr
    · rcases hdec : DecodeInstructionInto cfg reached_addr with _ | inst <;> rw [hdec] at hr
      · cases hr; simp
      · simp only [] at hr
        split at hr
        · cases hr
          have h2 : ∀ stx, (liftLoop cfg k (reached_addr + inst.bytes.length) stx).reached_addr
              = reached_addr + inst.bytes.length +
                (liftLoop cfg k (reached_addr + inst.bytes.length) stx).lens.sum :=
            fun stx => ih (reached_addr + inst.bytes.length) stx _ rfl
          refine Eq.trans (h2 _) ?_
          simp only [List.sum_cons]
          omega
        · cases hr; simp
    · cases hr; simp

/-- When the decoding loop exits by falling out of the range test, the final
`reached_addr` is at least the end of the block byte range. -/
theorem liftLoop_rangeDone_le (cfg : LiftConfig) :
    ∀ fuel reached_addr st r, liftLoop cfg fuel reached_addr st = r →
      r.exit = LoopExit.rangeDone →
      cfg.block_def.addr + cfg.block_def.size ≤ r.reached_addr := by
  intro fuel
  induction fuel with
  | zero =>
    intro reached_addr st r hr hexit
    simp only [liftLoop] at hr
    split at hr <;> cases hr
    · simp at hexit
    · rename_i hge
      simpa using Nat.le_of_not_lt hge
  | succ k ih =>
    intro reached_addr st r hr hexit
    simp only [liftLoop] at hr
    split at hr
    · rcases hdec : DecodeInstructionInto cfg reached_addr with _ | inst <;> rw [hdec] at hr
      · cases hr; simp at hexit
      · simp only [] at hr
        split at hr
        · cases hr
          have h2 : ∀ stx, (liftLoop cfg k (reached_addr + inst.bytes.length) stx).exit
                = LoopExit.rangeDone →
              cfg.block_def.addr + cfg.block_def.size ≤
                (liftLoop cfg k (reached_addr + inst.bytes.length) stx).reached_addr :=
            fun stx => ih (reached_addr + inst.bytes.length) stx _ rfl
          exact h2 _ hexit
        · cases hr; simp at hexit
    · rename_i hge
      cases hr
      simpa using Nat.le_of_not_lt hge

/-- When every successful decode consumes at least one byte, fuel equal to the
remaining byte range is enough: the loop never runs out of fuel (the modelled
counterpart of the C++ loop not diverging). -/
theorem liftLoop_no_fuelOut (cfg : LiftConfig)
    (hpos : ∀ a i, DecodeInstructionInto cfg a = some i → 1 ≤ i.bytes.length) :
    ∀ fuel reached_addr st r, liftLoop cfg fuel reached_addr st = r →
      cfg.block_def.addr + cfg.block_def.size - reached_addr ≤ fuel →
      r.exit ≠ LoopExit.fuelOut := by
  intro fuel
  induction fuel with
  | zero =>
    intro reached_addr st r hr hle
    have hnlt : ¬ reached_addr < cfg.block_def.addr + cfg.block_def.size := by omega
    simp only [liftLoop, if_neg hnlt] at hr
    cases hr; simp
  | succ k ih =>
    intro reached_addr st r hr hle
    simp only [liftLoop] at hr
    split at hr
    · rcases hdec : DecodeInstructionInto cfg reached_addr with _ | inst <;> rw [hdec] at hr
      · cases hr; simp
      · simp only [] at hr
        split at hr
        · cases hr
          have hlen := hpos reached_addr inst hdec
          have h2 : ∀ stx, (liftLoop cfg k (reached_addr + inst.bytes.length) stx).exit
              ≠ LoopExit.fuelOut :=
            fun stx => ih (reached_addr + inst.bytes.length) stx _ rfl (by omega)
          exact h2 _
        · cases hr; simp
    · cases hr; simp

/-- When every instruction decoded inside the block range ends within the
block, `reached_addr` never overshoots, so a `rangeDone` exit lands exactly on
`addr + size`. -/
theorem liftLoop_rangeDone_eq (cfg : LiftConfig)
    (hfit : ∀ a i, a < cfg.block_def.addr + cfg.block_def.size →
      DecodeInstructionInto cfg a = some i →
      a + i.bytes.length ≤ cfg.block_def.addr + cfg.block_def.size) :
    ∀ fuel reached_addr st r, liftLoop cfg fuel reached_addr st = r →
      reached_addr ≤ cfg.block_def.addr + cfg.block_def.size →
      r.exit = LoopExit.rangeDone →
      r.reached_addr = cfg.block_def.addr + cfg.block_def.size := by
  intro fuel
  induction fuel with
  | zero =>
    intro reached_addr st r hr hle hexit
    simp only [liftLoop] at hr
    split at hr <;> cases hr
    · simp at hexit
    · rename_i hge
      have := Nat.le_of_not_lt hge
      simp only []
      omega
  | succ k ih =>
    intro reached_addr st r hr hle hexit
    simp only [liftLoop] at hr
    split at hr
    · rename_i hlt
      rcases hdec : DecodeInstructionInto cfg reached_addr with _ | inst <;> rw [hdec] at hr
      · cases hr; simp at hexit
      · simp only [] at hr
        split at hr
        · cases hr
          have hnext := hfit reached_addr inst hlt hdec
          have h2 : ∀ stx, (liftLoop cfg k (reached_addr + inst.bytes.length) stx).exit
                = LoopExit.rangeDone →
              (liftLoop cfg k (reached_addr + inst.bytes.length) stx).reached_addr =
                cfg.block_def.addr + cfg.block_def.size :=
            fun stx => ih (reached_addr + inst.bytes.length) stx _ rfl hnext
          exact h2 _ hexit
        · cases hr; simp at hexit
    · rename_i hge
      cases hr
      have := Nat.le_of_not_lt hge
      simp only []
      omega

/-- The fall-through epilogue of `LiftInstructionsIntoLiftedFunction` only
appends events; the exit kind, the final address and the decoded lengths are
those of the decoding loop. -/
theorem liftInstructions_projections (cfg : LiftConfig) :
    (LiftInstructionsIntoLiftedFunction cfg).exit =
      (liftLoop cfg cfg.block_def.size cfg.block_def.addr initLiftState).exit
    ∧ (LiftInstructionsIntoLiftedFunction cfg).reached_addr =
      (liftLoop cfg cfg.block_def.size cfg.block_def.addr initLiftState).reached_addr
    ∧ (LiftInstructionsIntoLiftedFunction cfg).lens =
      (liftLoop cfg cfg.block_def.size cfg.block_def.addr initLiftState).lens := by
  simp only [LiftInstructionsIntoLiftedFunction]
  split <;> simp

/-- Claim C1 is corrected: `reached_addr` starts at the block start and
advances by the byte length of each decoded instruction, and a loop that falls
out of the range test has consumed at least the block byte extent — exactly
`addr + size` whenever every decoded instruction ends inside the block — but
the loop can also end early on a failed decode, not only on a terminal
control-flow override, and the final instruction may overshoot `addr + size`
when its length extends past the block end. This theorem states the amended
claim (the positivity hypothesis rules out the diverging zero-length-decode
corner so the fuel bound is never hit). -/
theorem lift_loop_advance_and_exit_characterization (cfg : LiftConfig)
    (hpos : ∀ a i, DecodeInstructionInto cfg a = some i → 1 ≤ i.bytes.length) :
    (LiftInstructionsIntoLiftedFunction cfg).reached_addr =
      cfg.block_def.addr + (LiftInstructionsIntoLiftedFunction cfg).lens.sum
    ∧ (LiftInstructionsIntoLiftedFunction cfg).exit ≠ LoopExit.fuelOut
    ∧ ((LiftInstructionsIntoLiftedFunction cfg).exit = LoopExit.rangeDone →
        cfg.block_def.addr + cfg.block_def.size ≤
          (LiftInstructionsIntoLiftedFunction cfg).reached_addr)
    ∧ ((∀ a i, a < cfg.block_def.addr + cfg.block_def.size →
          DecodeInstructionInto cfg a = some i →
          a + i.bytes.length ≤ cfg.block_def.addr + cfg.block_def.size) →
        (LiftInstructionsIntoLiftedFunction cfg).exit = LoopExit.rangeDone →
        (LiftInstructionsIntoLiftedFunction cfg).reached_addr =
          cfg.block_def.addr + cfg.block_def.size)
    ∧ ((LiftInstructionsIntoLiftedFunction cfg).exit ≠ LoopExit.rangeDone →
        (LiftInstructionsIntoLiftedFunction cfg).exit = LoopExit.terminal
        ∨ (LiftInstructionsIntoLiftedFunction cfg).exit = LoopExit.decodeFail) := by
  obtain ⟨he, hr, hl⟩ := liftInstructions_projections cfg
  refine ⟨?_, ?_, ?_, ?_, ?_⟩
  · rw [hr, hl]
    exact liftLoop_reached_eq_sum cfg cfg.block_def.size cfg.block_def.addr
      initLiftState _ rfl
  · rw [he]
    exact liftLoop_no_fuelOut cfg hpos cfg.block_def.size cfg.block_def.addr
      initLiftState _ rfl (by omega)
  · rw [he, hr]
    exact liftLoop_rangeDone_le cfg cfg.block_def.size cfg.block_def.addr
      initLiftState _ rfl
  · intro hfit hdone
    rw [he] at hdone
    rw [hr]
    exact liftLoop_rangeDone_eq cfg hfit cfg.block_def.size cfg.block_def.addr
      initLiftState _ rfl (by omega) hdone
  · rw [he]
    intro hne
    have hfo := liftLoop_no_fuelOut cfg hpos cfg.block_def.size cfg.block_def.addr
      initLiftState _ rfl (by omega)
    cases hx : (liftLoop cfg cfg.block_def.size cfg.block_def.addr initLiftState).exit
    · exact absurd hx hne
    · exact Or.inl rfl
    · exact Or.inr rfl
    · exact absurd hx hfo

/-- A configuration on which the loop overshoots: a three-byte block whose
instructions are all two bytes long, with no override anywhere. -/
def overshootCfg : LiftConfig :=
  { decodeInstruction := fun a _ => some ⟨a, [0, 0], a + 2, false⟩,
    maxInstSize := 4,
    memQuery := fun _ => (0, ByteAvailability.kAvailable, BytePermission.kReadableExecutable),
    getControlFlowOverride := fun _ => ControlFlowOverride.none,
    is_sparc := false,
    block_def := { addr := 0, size := 3, uid := 0, outgoing_edges := [] },
    type_hints := [] }

/-- Counterexample to claim C1 as stated: on `overshootCfg` the loop exits by
the range test (no terminal override was ever applied — there is none), yet
the sum of decoded instruction lengths is 4, not the block extent
`addr + size = 3`. -/
theorem decode_loop_overshoots_block_end :
    (LiftInstructionsIntoLiftedFunction overshootCfg).exit = LoopExit.rangeDone
    ∧ (LiftInstructionsIntoLiftedFunction overshootCfg).lens = [2, 2]
    ∧ (LiftInstructionsIntoLiftedFunction overshootCfg).reached_addr = 4
    ∧ overshootCfg.block_def.addr + overshootCfg.block_def.size = 3 := by
  decide

/-- Witness for claim C1 (amended): the characterization applied to
`returnMidBlockCfg`, whose one-byte instructions decode everywhere. -/
theorem lift_loop_advance_witness :
    (LiftInstructionsIntoLiftedFunction returnMidBlockCfg).reached_addr =
      returnMidBlockCfg.block_def.addr +
        (LiftInstructionsIntoLiftedFunction returnMidBlockCfg).lens.sum
    ∧ (LiftInstructionsIntoLiftedFunction returnMidBlockCfg).exit ≠ LoopExit.fuelOut :=
  ⟨(lift_loop_advance_and_exit_characterization returnMidBlockCfg
      (fun a i hi => by
        simp only [DecodeInstructionInto] at hi
        cases hi
        simp)).1,
   (lift_loop_advance_and_exit_characterization returnMidBlockCfg
      (fun a i hi => by
        simp only [DecodeInstructionInto] at hi
        cases hi
        simp)).2.1⟩

/-- Writing cells whose locations avoid `l` leaves the cell at `l` unchanged. -/
theorem writeLocs_frame (pairs : List (LowLoc × Nat)) (s : MachineState) (l : LowLoc)
    (h : ∀ p ∈ pairs, p.1 ≠ l) : writeLocs pairs s l = s l := by
  induction pairs generalizing s with
  | nil => rfl
  | cons p rest ih =>
    simp only [writeLocs, List.foldl_cons] at *
    rw [ih (writeLoc s p.1 p.2) (fun q hq => h q (List.mem_cons_of_mem _ hq))]
    simp only [writeLoc]
    rw [if_neg (fun he => h p (List.mem_cons_self _ _) he.symm)]

/-- `StoreNativeValue` does not touch cells outside the declared locations. -/
theorem StoreNativeValue_frame (p : ParameterDecl) (v : List Nat) (s : MachineState)
    (l : LowLoc) (h : l ∉ p.oredered_locs) : StoreNativeValue p v s l = s l := by
  refine writeLocs_frame _ s l ?_
  intro q hq he
  exact h (he ▸ (List.of_mem_zip hq).1)

/-- Reading duplicate-free locations back after writing them with the zipped
values recovers exactly the written values. -/
theorem writeLocs_zip_read (locs : List LowLoc) :
    ∀ (v : List Nat) (s : MachineState), locs.Nodup → v.length = locs.length →
      locs.map (writeLocs (locs.zip v) s) = v := by
  induction locs with
  | nil =>
    intro v s _ hlen
    cases v
    · rfl
    · simp at hlen
  | cons l rest ih =>
    intro v s hnd hlen
    cases v with
    | nil => simp at hlen
    | cons c vrest =>
      simp only [List.zip_cons_cons, writeLocs, List.foldl_cons, List.map_cons,
        List.cons.injEq]
      have hnotin : l ∉ rest := (List.nodup_cons.mp hnd).1
      refine ⟨?_, ?_⟩
      · rw [show List.foldl (fun acc lv => writeLoc acc lv.1 lv.2)
              (writeLoc s l c) (rest.zip vrest) =
            writeLocs (rest.zip vrest) (writeLoc s l c) from rfl]
        rw [writeLocs_frame _ _ l (fun q hq he => hnotin (he ▸ (List.of_mem_zip hq).1))]
        simp [writeLoc]
      · exact ih vrest (writeLoc s l c) (List.nodup_cons.mp hnd).2 (by simpa using hlen)

/-- Load-after-store roundtrip for one declaration with duplicate-free
locations and a value spanning exactly those locations. -/
theorem LoadLiftedValue_StoreNativeValue (p : ParameterDecl) (v : List Nat)
    (s : MachineState) (hnd : p.oredered_locs.Nodup)
    (hlen : v.length = p.oredered_locs.length) :
    LoadLiftedValue p (StoreNativeValue p v s) = v :=
  writeLocs_zip_read p.oredered_locs v s hnd hlen

/-- A store to locations disjoint from a declaration leaves its loaded value
unchanged. -/
theorem LoadLiftedValue_frame (d e : ParameterDecl) (v : List Nat) (s : MachineState)
    (h : ∀ l ∈ d.oredered_locs, l ∉ e.oredered_locs) :
    LoadLiftedValue d (StoreNativeValue e v s) = LoadLiftedValue d s := by
  simp only [LoadLiftedValue]
  refine List.map_congr_left ?_
  intro l hl
  exact StoreNativeValue_frame e v s l (h l hl)

/-- Unpacking a list of declarations that each either share the slot of `d` or
occupy locations disjoint from `d` preserves the loaded value of `d` being its
slot value. -/
theorem unpack_preserves (x : VarStruct) (d : ParameterDecl)
    (hnd : d.oredered_locs.Nodup) (hlen : (x d).length = d.oredered_locs.length) :
    ∀ (decls : List BasicBlockVariable) (s s1 : MachineState),
      (∀ e ∈ decls, e.param = d ∨ ∀ l ∈ d.oredered_locs, l ∉ e.param.oredered_locs) →
      LoadLiftedValue d s = x d →
      UnpackLiveValues decls x s = some s1 →
      LoadLiftedValue d s1 = x d := by
  intro decls
  induction decls with
  | nil =>
    intro s s1 _ hload hu
    cases hu
    exact hload
  | cons e rest ih =>
    intro s s1 hall hload hu
    simp only [UnpackLiveValues] at hu
    split at hu
    · refine ih (StoreNativeValue e.param (x e.param) s) s1
        (fun q hq => hall q (List.mem_cons_of_mem _ hq)) ?_ hu
      rcases hall e (List.mem_cons_self _ _) with he | he
      · rw [he]
        exact LoadLiftedValue_StoreNativeValue d (x d) s hnd hlen
      · rw [LoadLiftedValue_frame d e.param (x e.param) s he]
        exact hload
    · split at hu
      · exact absurd hu (by simp)
      · exact ih s s1 (fun q hq => hall q (List.mem_cons_of_mem _ hq)) hload hu

/-- After a successful unpack, every register-resident declaration of the list
loads back its own slot value, provided declarations are duplicate-free within
and pairwise disjoint across distinct slots. -/
theorem unpack_loads (x : VarStruct) :
    ∀ (decls : List BasicBlockVariable),
      (∀ e ∈ decls, e.param.oredered_locs.Nodup) →
      (∀ e ∈ decls, (x e.param).length = e.param.oredered_locs.length) →
      (∀ e1 ∈ decls, ∀ e2 ∈ decls, e1.param ≠ e2.param →
        ∀ l ∈ e1.param.oredered_locs, l ∉ e2.param.oredered_locs) →
      ∀ s s1, UnpackLiveValues decls x s = some s1 →
        ∀ d ∈ decls, HasMemLoc d.param = false →
          LoadLiftedValue d.param s1 = x d.param := by
  intro decls
  induction decls with
  | nil =>
    intro _ _ _ s s1 _ d hd
    exact absurd hd (List.not_mem_nil d)
  | cons e rest ih =>
    intro hnd hlen hdisj s s1 hu d hd hdmem
    simp only [UnpackLiveValues] at hu
    rcases List.mem_cons.mp hd with hd | hd
    · subst hd
      split at hu
      · refine unpack_preserves x d.param (hnd d (List.mem_cons_self _ _)) (hlen d (List.mem_cons_self _ _))
          rest (StoreNativeValue d.param (x d.param) s) s1 ?_ ?_ hu
        · intro e2 he2
          by_cases hsame : e2.param = d.param
          · exact Or.inl hsame
          · exact Or.inr (hdisj d (List.mem_cons_self _ _) e2 (List.mem_cons_of_mem _ he2)
              (fun he => hsame he.symm))
        · exact LoadLiftedValue_StoreNativeValue d.param (x d.param) s
            (hnd d (List.mem_cons_self _ _)) (hlen d (List.mem_cons_self _ _))
      · rename_i hmem
        exact absurd hdmem (by simpa using hmem)
    · have hrest : ∀ e1 ∈ rest, ∀ e2 ∈ rest, e1.param ≠ e2.param →
          ∀ l ∈ e1.param.oredered_locs, l ∉ e2.param.oredered_locs :=
        fun e1 h1 e2 h2 => hdisj e1 (List.mem_cons_of_mem _ h1) e2 (List.mem_cons_of_mem _ h2)
      split at hu
      · exact ih (fun q hq => hnd q (List.mem_cons_of_mem _ hq)) (fun q hq => hlen q (List.mem_cons_of_mem _ hq))
          hrest _ s1 hu d hd hdmem
      · split at hu
        · exact absurd hu (by simp)
        · exact ih (fun q hq => hnd q (List.mem_cons_of_mem _ hq)) (fun q hq => hlen q (List.mem_cons_of_mem _ hq))
            hrest s s1 hu d hd hdmem

/-- Unpacking succeeds whenever no declaration has split storage. -/
theorem unpack_total (x : VarStruct) :
    ∀ (decls : List BasicBlockVariable) (s : MachineState),
      (∀ d ∈ decls, ¬(HasMemLoc d.param = true ∧ HasRegLoc d.param = true)) →
      ∃ s1, UnpackLiveValues decls x s = some s1 := by
  intro decls
  induction decls with
  | nil => exact fun s _ => ⟨s, rfl⟩
  | cons e rest ih =>
    intro s hsplit
    simp only [UnpackLiveValues]
    by_cases hmem : HasMemLoc e.param = true
    · have hreg : ¬ HasRegLoc e.param = true :=
        fun hr => hsplit e (List.mem_cons_self _ _) ⟨hmem, hr⟩
      rw [if_neg (by simp [hmem]), if_neg hreg]
      exact ih s (fun q hq => hsplit q (List.mem_cons_of_mem _ hq))
    · rw [if_pos (by simpa using hmem)]
      exact ih _ (fun q hq => hsplit q (List.mem_cons_of_mem _ hq))

/-- Rewriting a slot with the value it already holds is the identity. -/
theorem writeSlot_self (x : VarStruct) (p : ParameterDecl) :
    writeSlot x p (x p) = x := by
  funext q
  simp only [writeSlot]
  split
  · rename_i h
    rw [h]
  · rfl

/-- Packing a state in which every register-resident declaration loads its own
slot value writes the struct back unchanged. -/
theorem pack_of_loads (s1 : MachineState) :
    ∀ (decls : List BasicBlockVariable) (x : VarStruct),
      (∀ d ∈ decls, HasMemLoc d.param = false → LoadLiftedValue d.param s1 = x d.param) →
      (∀ d ∈ decls, ¬(HasMemLoc d.param = true ∧ HasRegLoc d.param = true)) →
      PackLiveValues decls s1 x = some x := by
  intro decls
  induction decls with
  | nil => exact fun x _ _ => rfl
  | cons e rest ih =>
    intro x hload hsplit
    simp only [PackLiveValues]
    by_cases hmem : HasMemLoc e.param = true
    · have hreg : ¬ HasRegLoc e.param = true :=
        fun hr => hsplit e (List.mem_cons_self _ _) ⟨hmem, hr⟩
      rw [if_neg (by simp [hmem]), if_neg hreg]
      exact ih x (fun q hq => hload q (List.mem_cons_of_mem _ hq)) (fun q hq => hsplit q (List.mem_cons_of_mem _ hq))
    · rw [if_pos (by simpa using hmem)]
      rw [hload e (List.mem_cons_self _ _) (by simpa using hmem), writeSlot_self]
      exact ih x (fun q hq => hload q (List.mem_cons_of_mem _ hq)) (fun q hq => hsplit q (List.mem_cons_of_mem _ hq))

/-- Claim C5 is corrected: with no split storage alone, Pack after Unpack need
not reproduce the struct (distinct declarations may alias the same register,
see the counterexample); under the additional well-formedness that holds for
declared storage — duplicate-free locations within each declaration, pairwise
disjoint locations across declarations with distinct slots, and each slot
value spanning exactly its declared locations — `PackLiveValues` run
immediately after `UnpackLiveValues` reproduces the original struct slots
bit-for-bit at every location. This theorem states the amended claim. -/
theorem pack_unpack_roundtrip_disjoint (decls : List BasicBlockVariable)
    (x : VarStruct) (s : MachineState)
    (hsplit : ∀ d ∈ decls, ¬(HasMemLoc d.param = true ∧ HasRegLoc d.param = true))
    (hnd : ∀ d ∈ decls, d.param.oredered_locs.Nodup)
    (hlen : ∀ d ∈ decls, (x d.param).length = d.param.oredered_locs.length)
    (hdisj : ∀ d1 ∈ decls, ∀ d2 ∈ decls, d1.param ≠ d2.param →
      ∀ l ∈ d1.param.oredered_locs, l ∉ d2.param.oredered_locs) :
    ∃ s1, UnpackLiveValues decls x s = some s1
      ∧ PackLiveValues decls s1 x = some x
      ∧ packAfterUnpack decls x s = some x := by
  obtain ⟨s1, hs1⟩ := unpack_total x decls s hsplit
  have hloads := unpack_loads x decls hnd hlen hdisj s s1 hs1
  have hpack := pack_of_loads s1 decls x hloads hsplit
  exact ⟨s1, hs1, hpack, by simp [packAfterUnpack, hs1, hpack]⟩

/-- Two declarations in distinct slots aliasing the same register. -/
def aliasedDecl0 : BasicBlockVariable := ⟨⟨0, [LowLoc.reg 0]⟩⟩

/-- The second aliased declaration. -/
def aliasedDecl1 : BasicBlockVariable := ⟨⟨1, [LowLoc.reg 0]⟩⟩

/-- A struct holding 1 in the slot of the first declaration and 2 in every
other slot. -/
def aliasedStruct : VarStruct := fun p => if p.name = 0 then [1] else [2]

/-- An all-zero machine state. -/
def zeroState : MachineState := fun _ => 0

/-- Counterexample to claim C5 as stated: neither declaration has split
storage (both are register-only), yet Pack immediately after Unpack yields 2
in the slot of the first declaration where the original struct held 1 — the
unpack of the second declaration overwrote the shared register. -/
theorem pack_unpack_fails_on_aliased_registers :
    HasMemLoc aliasedDecl0.param = false
    ∧ HasMemLoc aliasedDecl1.param = false
    ∧ (packAfterUnpack [aliasedDecl0, aliasedDecl1] aliasedStruct zeroState).map
        (fun y => y aliasedDecl0.param) = some [2]
    ∧ aliasedStruct aliasedDecl0.param = [1]
    ∧ (packAfterUnpack [aliasedDecl0, aliasedDecl1] aliasedStruct zeroState).map
        (fun y => y aliasedDecl0.param) ≠
      some (aliasedStruct aliasedDecl0.param) := by
  refine ⟨rfl, rfl, rfl, rfl, ?_⟩
  intro h
  rw [show (packAfterUnpack [aliasedDecl0, aliasedDecl1] aliasedStruct zeroState).map
      (fun y => y aliasedDecl0.param) = some [2] from rfl] at h
  simp [aliasedStruct, aliasedDecl0] at h

/-- Witness for claim C5 (amended): two register-disjoint declarations round
trip their slots exactly. -/
theorem pack_unpack_roundtrip_witness :
    ∃ s1, UnpackLiveValues [aliasedDecl0, ⟨⟨1, [LowLoc.reg 1]⟩⟩] aliasedStruct
        zeroState = some s1
      ∧ PackLiveValues [aliasedDecl0, ⟨⟨1, [LowLoc.reg 1]⟩⟩] s1 aliasedStruct =
          some aliasedStruct
      ∧ packAfterUnpack [aliasedDecl0, ⟨⟨1, [LowLoc.reg 1]⟩⟩] aliasedStruct
          zeroState = some aliasedStruct :=
  pack_unpack_roundtrip_disjoint [aliasedDecl0, ⟨⟨1, [LowLoc.reg 1]⟩⟩]
    aliasedStruct zeroState (by decide) (by decide)
    (by intro d hd; fin_cases hd <;> rfl)
    (by decide)

end Anvill
